import Mathlib

/-!
Verification development for the kanade terminal music player.

This file embeds the playback/download core of the repository in Lean:
the beep sample-rate arithmetic used by the decode/resample adapter,
the `seekWrapper` stream, the `Player` state machine of the audio
package, and the download manager's per-job status machine, retry loop,
progress emission, and snapshot listing.  All definitions are
translated from the Go sources (`audio` package, `downloader/manager.go`).
-/

namespace Kanade

/-! ## beep sample-rate arithmetic

`beep.SampleRate` is an integer; durations are `time.Duration`
(nanoseconds, int64).  `sr.D(n) = time.Second * n / sr` and
`sr.N(d) = d * sr / time.Second`, both with truncating division.
All quantities handled by the player are non-negative, so we use `ℕ`
with floor division. -/

/-- Nanoseconds in `time.Second`. -/
def nsPerSec : ℕ := 1000000000

/-- `beep.SampleRate.D`: duration (ns) of `n` samples at rate `sr`. -/
def srD (sr n : ℕ) : ℕ := nsPerSec * n / sr

/-- `beep.SampleRate.N`: number of samples lasting `d` ns at rate `sr`. -/
def srN (sr d : ℕ) : ℕ := d * sr / nsPerSec

/-- Total length computed by `Player.Load` when the source rate differs from
the speaker rate: `speakerRate.N(sourceRate.D(totalSamples))`. -/
def resampledLength (srcRate tgtRate n : ℕ) : ℕ := srN tgtRate (srD srcRate n)

/-- Converting the adapter's reported length back to a sample count at the
source rate, with the same two-step conversion. -/
def roundTrip (srcRate tgtRate n : ℕ) : ℕ :=
  srN srcRate (srD tgtRate (resampledLength srcRate tgtRate n))

theorem nsPerSec_pos : 0 < nsPerSec := by norm_num [nsPerSec]

/-- Strict upper bound `a < (a / b + 1) * b` for `0 < b`. -/
theorem lt_div_succ_mul (a b : ℕ) (hb : 0 < b) : a < (a / b + 1) * b := by
  have h := Nat.div_add_mod a b
  have h2 : a % b < b := Nat.mod_lt a hb
  have h3 : (a / b + 1) * b = b * (a / b) + b := by ring
  omega

/-- A sample position below the adapter's converted length maps back, through
`srN s (srD t _)`, to a position below the original length.  This is the key
fact making `seekWrapper.Seek`'s seek of the underlying source in-bounds. -/
theorem back_le {s t L : ℕ} (p : ℕ) (hs : 0 < s) (ht : 0 < t)
    (hp : p ≤ srN t (srD s L)) : srN s (srD t p) ≤ L := by
  unfold srN srD at *
  have h1 : nsPerSec * p ≤ nsPerSec * L / s * t := by
    calc nsPerSec * p = p * nsPerSec := by ring
      _ ≤ nsPerSec * L / s * t / nsPerSec * nsPerSec :=
          Nat.mul_le_mul_right _ hp
      _ ≤ nsPerSec * L / s * t := Nat.div_mul_le_self _ _
  have h2 : nsPerSec * p / t ≤ nsPerSec * L / s := by
    calc nsPerSec * p / t ≤ nsPerSec * L / s * t / t := Nat.div_le_div_right h1
      _ = nsPerSec * L / s := Nat.mul_div_cancel _ ht
  calc nsPerSec * p / t * s / nsPerSec
      ≤ nsPerSec * L / s * s / nsPerSec := by
        apply Nat.div_le_div_right
        exact Nat.mul_le_mul_right _ h2
    _ ≤ nsPerSec * L / nsPerSec := Nat.div_le_div_right (Nat.div_mul_le_self _ _)
    _ = L := Nat.mul_div_cancel_left _ nsPerSec_pos

/-- A duration below `srD r L` maps through `srN r` to a sample position
below `L`.  This makes `Player.Seek`'s underlying sample seek in-bounds. -/
theorem srN_le_of_le_srD {r L : ℕ} (p : ℕ) (hr : 0 < r)
    (hp : p ≤ srD r L) : srN r p ≤ L := by
  unfold srN srD at *
  calc p * r / nsPerSec ≤ nsPerSec * L / r * r / nsPerSec := by
        apply Nat.div_le_div_right
        exact Nat.mul_le_mul_right _ hp
    _ ≤ nsPerSec * L / nsPerSec := Nat.div_le_div_right (Nat.div_mul_le_self _ _)
    _ = L := Nat.mul_div_cancel_left _ nsPerSec_pos

theorem roundTrip_le (s t n : ℕ) (hs : 0 < s) (ht : 0 < t) :
    roundTrip s t n ≤ n :=
  back_le _ hs ht le_rfl

theorem roundTrip_lower (s t n : ℕ) (hs : 0 < s) (ht : 0 < t) :
    nsPerSec * t * n < nsPerSec * t * roundTrip s t n
      + nsPerSec * s + 2 * s * t + nsPerSec * t := by
  have hK : 0 < nsPerSec := nsPerSec_pos
  set K := nsPerSec with hKdef
  set d1 := K * n / s with hd1
  set m := d1 * t / K with hm
  set d2 := K * m / t with hd2
  have hn2 : roundTrip s t n = d2 * s / K := rfl
  set n2 := d2 * s / K with hn2def
  rw [hn2]
  have F1 : K * n < (d1 + 1) * s := by
    have := lt_div_succ_mul (K * n) s hs
    rw [← hd1] at this
    exact this
  have F2 : d1 * t < (m + 1) * K := by
    have := lt_div_succ_mul (d1 * t) K hK
    rw [← hm] at this
    exact this
  have F3 : K * m < (d2 + 1) * t := by
    have := lt_div_succ_mul (K * m) t ht
    rw [← hd2] at this
    exact this
  have F4 : d2 * s < (n2 + 1) * K := by
    have := lt_div_succ_mul (d2 * s) K hK
    rw [← hn2def] at this
    exact this
  have G1 : K * n * t < (d1 + 1) * s * t := by
    exact mul_lt_mul_of_pos_right F1 ht
  have G2 : d1 * t * s < (m + 1) * K * s := by
    exact mul_lt_mul_of_pos_right F2 hs
  have G3 : K * m * s < (d2 + 1) * t * s := by
    exact mul_lt_mul_of_pos_right F3 hs
  have G4 : d2 * s * t < (n2 + 1) * K * t := by
    exact mul_lt_mul_of_pos_right F4 ht
  nlinarith [G1, G2, G3, G4]

/-- Claim C4: the two-step length conversion, converted back to a sample
count at the source rate, is claimed to be within one sample of the
original count.  This fails at the program's own configuration: source
rate 48000, target (speaker) rate 44100, 13 source samples round-trip
to 11, an error of two samples. -/
theorem C4_counterexample :
    roundTrip 48000 44100 13 = 11 ∧ 1 < 13 - roundTrip 48000 44100 13 := by
  decide

/-- Claim C4 (amended): the round-trip never overestimates the original
sample count, and its shortfall is bounded: `K·t·(n − n′) < K·s + 2·s·t + K·t`
with `K = 10⁹` ns/s, i.e. `n − n′ < s/t + 2s/K + 1`; the one-sample
tolerance claimed by the spec does not hold in general. -/
theorem C4_roundTrip_bounds (s t n : ℕ) (hs : 0 < s) (ht : 0 < t) :
    roundTrip s t n ≤ n ∧
    nsPerSec * t * n < nsPerSec * t * roundTrip s t n
      + nsPerSec * s + 2 * s * t + nsPerSec * t :=
  ⟨roundTrip_le s t n hs ht, roundTrip_lower s t n hs ht⟩

theorem C4_roundTrip_bounds_witness :
    roundTrip 48000 44100 13 ≤ 13 ∧
    nsPerSec * 44100 * 13 < nsPerSec * 44100 * roundTrip 48000 44100 13
      + nsPerSec * 48000 + 2 * 48000 * 44100 + nsPerSec * 44100 :=
  C4_roundTrip_bounds 48000 44100 13 (by norm_num) (by norm_num)

/-! ## The `seekWrapper` resample adapter

`seekWrapper` (audio player source) wraps the original decoded stream
together with a `beep.Resample` filter.  We model the wrapper state with
the underlying stream's position and length and a `filterGen` counter
that is bumped every time the resampling filter is rebuilt.  The
underlying decoded stream's `Seek` succeeds exactly on positions in
`[0, origLen]` (the beep decoders reject out-of-range positions). -/

structure SeekWrapperSt where
  origLen : ℕ
  origPos : ℕ
  origRate : ℕ
  targetRate : ℕ
  length : ℕ
  position : ℕ
  filterGen : ℕ
deriving DecidableEq, Repr

/-- The wrapper as built by `Player.Load`: `length` is the two-step
converted total length, position starts at 0. -/
def mkSeekWrapper (origRate targetRate origLen : ℕ) : SeekWrapperSt :=
  { origLen := origLen
    origPos := 0
    origRate := origRate
    targetRate := targetRate
    length := srN targetRate (srD origRate origLen)
    position := 0
    filterGen := 0 }

/-- `seekWrapper.Seek`.  `p` is an `int` in Go, so we take `p : ℤ`.
Mirrors: bounds check against `[0, length]`, convert `p` to a duration at
the target rate, back to a sample offset at the original rate, seek the
original stream there, rebuild the resampling filter, set `position := p`. -/
def wrapperSeek (s : SeekWrapperSt) (p : ℤ) : Except String SeekWrapperSt :=
  if p < 0 ∨ p > (s.length : ℤ) then
    .error "seek position out of bounds"
  else
    let targetDuration := srD s.targetRate p.toNat
    let originalPos := srN s.origRate targetDuration
    if originalPos > s.origLen then
      .error "original stream seek out of bounds"
    else
      .ok { s with
              origPos := originalPos
              position := p.toNat
              filterGen := s.filterGen + 1 }

/-- `seekWrapper.Stream`: delegates to the filter and advances the tracked
position by the samples produced. -/
def wrapperStream (s : SeekWrapperSt) (produced : ℕ) : SeekWrapperSt :=
  { s with position := s.position + produced }

/-- `seekWrapper.Len` returns the stored length. -/
def wrapperLen (s : SeekWrapperSt) : ℕ := s.length

/-- Claim C5: for `0 ≤ p ≤ length`, `Seek(p)` succeeds, seeks the underlying
source to `srN origRate (srD targetRate p)` (which is in-bounds for the
source), rebuilds the resampling filter, and sets the tracked position to
exactly `p`; for `p < 0` or `p > length` it errors and changes nothing. -/
theorem C5_wrapperSeek (origRate targetRate origLen : ℕ) (p : ℤ)
    (hs : 0 < origRate) (ht : 0 < targetRate) (w : SeekWrapperSt)
    (hw : w = mkSeekWrapper origRate targetRate origLen) :
    (0 ≤ p → p ≤ (w.length : ℤ) →
      wrapperSeek w p =
        .ok { w with
                origPos := srN origRate (srD targetRate p.toNat)
                position := p.toNat
                filterGen := w.filterGen + 1 }) ∧
    (p < 0 ∨ (w.length : ℤ) < p → wrapperSeek w p = .error "seek position out of bounds") := by
  subst hw
  constructor
  · intro h0 hle
    have hb : ¬ (p < 0 ∨ p > ((mkSeekWrapper origRate targetRate origLen).length : ℤ)) := by
      push_neg
      exact ⟨h0, hle⟩
    have horig : srN origRate (srD targetRate p.toNat) ≤ origLen := by
      apply back_le p.toNat hs ht
      have hlen : (mkSeekWrapper origRate targetRate origLen).length
          = srN targetRate (srD origRate origLen) := rfl
      rw [hlen] at hle
      omega
    simp only [wrapperSeek, mkSeekWrapper] at hb horig ⊢
    rw [if_neg hb, if_neg (not_lt.mpr horig)]
  · intro h
    have hb : p < 0 ∨ p > ((mkSeekWrapper origRate targetRate origLen).length : ℤ) := by
      rcases h with h | h
      · exact Or.inl h
      · exact Or.inr h
    simp only [wrapperSeek, hb, if_true]

theorem C5_wrapperSeek_witness :
    wrapperSeek (mkSeekWrapper 48000 44100 48000) 22050 =
      .ok { mkSeekWrapper 48000 44100 48000 with
              origPos := srN 48000 (srD 44100 (22050 : ℤ).toNat)
              position := (22050 : ℤ).toNat
              filterGen := (mkSeekWrapper 48000 44100 48000).filterGen + 1 } :=
  (C5_wrapperSeek 48000 44100 48000 22050 (by norm_num) (by norm_num) _ rfl).1
    (by norm_num) (by decide)

/-! ## File-extension handling

`getFileExtension` (audio player source) scans backwards for a dot,
stopping at `/` or `\`, and returns the suffix including the dot,
case preserved.  `filepath.Ext` + `strings.ToLower` is the variant used
by the library's `isSupportedAudioFile`. -/

/-- Backwards scan of `getFileExtension`: `rev` is the reversed remaining
path, `acc` the characters already passed (in original order). -/
def extSearch : List Char → List Char → String
  | [], _ => ""
  | c :: rest, acc =>
    if c = '.' then String.mk (c :: acc)
    else if c = '/' ∨ c = '\\' then ""
    else extSearch rest (c :: acc)

/-- `getFileExtension` from the audio player source. -/
def getFileExtension (fp : String) : String := extSearch fp.toList.reverse []

/-- Backwards scan of Go's `filepath.Ext` (path separator `/` only). -/
def extSearchSlash : List Char → List Char → String
  | [], _ => ""
  | c :: rest, acc =>
    if c = '/' then ""
    else if c = '.' then String.mk (c :: acc)
    else extSearchSlash rest (c :: acc)

/-- Go's `filepath.Ext`. -/
def filepathExt (fp : String) : String := extSearchSlash fp.toList.reverse []

/-- Go's `strings.ToLower`, character-wise. -/
def lowerStr (s : String) : String := String.mk (s.toList.map Char.toLower)

/-- `isSupportedAudioFile` from the library code: lower-cases the
extension before comparing. -/
def isSupportedAudioFile (filename : String) : Bool :=
  let ext := lowerStr (filepathExt filename)
  ext = ".mp3" || ext = ".wav"

/-- The decoder chosen by `Player.Load`'s `switch` on the raw (case
preserved) extension. -/
inductive AudioKind
  | mp3
  | wav
deriving DecidableEq, Repr

/-- The `switch ext` dispatch in `Player.Load`: exact, case-sensitive
comparison with ".mp3" and ".wav". -/
def loadDispatch (ext : String) : Option AudioKind :=
  if ext = ".mp3" then some .mp3
  else if ext = ".wav" then some .wav
  else none

/-! ## The Player state machine

State fields mirror the Go `Player` struct.  Durations
(`pausedPosition`, `totalLength`) are in nanoseconds (`time.Duration`);
they are non-negative throughout, so `ℕ`.  `volumeLevel` is a `float64`
in Go on which the code only compares against 0 and 1, stores, and
subtracts 1 — all exact, so `ℚ` is a faithful carrier.  `playbackDone`
models the 1-buffered one-shot completion channel: `true` iff a finished
signal is pending. -/

structure StreamerSt where
  len : ℕ
  pos : ℕ
deriving DecidableEq, Repr

structure PlayerState where
  streamer : Option StreamerSt
  formatRate : ℕ
  speakerRate : ℕ
  isInitialized : Bool
  isPlaying : Bool
  currentFile : String
  totalLength : ℕ
  pausedPosition : ℕ
  sampleOffset : ℕ
  volumeLevel : ℚ
  hasCtrl : Bool
  hasVolume : Bool
  volumeSilent : Bool
  volumeVal : ℚ
  playbackDone : Bool
  isClosed : Bool
  lastError : Option String
deriving DecidableEq, Repr

/-- The rational 1/2, written as a raw `Rat` constructor so that the
comparisons in the player code reduce definitionally (Mathlib's `ℚ`
arithmetic is irreducible). -/
def ratHalf : ℚ := ⟨1, 2, by decide, by decide⟩

theorem ratHalf_eq : ratHalf = 1 / 2 := by
  have : ratHalf = (1 : ℚ) * (2 : ℚ)⁻¹ := by
    rw [ratHalf]
    norm_num [Rat.mk'_eq_divInt, Rat.divInt_eq_div]
  rw [this, div_eq_mul_inv]

/-- `NewPlayer()`: volume 0.5, empty 1-buffered completion channel. -/
def newPlayer : PlayerState :=
  { streamer := none, formatRate := 0, speakerRate := 0, isInitialized := false
    isPlaying := false, currentFile := "", totalLength := 0, pausedPosition := 0
    sampleOffset := 0, volumeLevel := ratHalf, hasCtrl := false, hasVolume := false
    volumeSilent := false, volumeVal := 0, playbackDone := false, isClosed := false
    lastError := none }

/-- Message of the invalid-volume error. -/
def invalidVolumeMsg : String := "volume must be between 0.0 and 1.0"

/-- `Player.setVolumeUnsafe`: validates the range, stores the level, and if
a volume wrapper exists maps it onto the wrapper (silent at 0, else
`Volume = level − 1`). -/
def setVolumeUnsafe (st : PlayerState) (v : ℚ) : PlayerState × Option String :=
  if v < 0 ∨ v > 1 then (st, some invalidVolumeMsg)
  else
    let st1 := { st with volumeLevel := v }
    if st1.hasVolume = false then (st1, none)
    else if v = 0 then ({ st1 with volumeSilent := true }, none)
    else ({ st1 with volumeSilent := false, volumeVal := v - 1 }, none)

/-- `Player.SetVolume`: takes the lock and calls `setVolumeUnsafe`. -/
def playerSetVolume (st : PlayerState) (v : ℚ) : PlayerState × Option String :=
  setVolumeUnsafe st v

/-- Environment of one `Load` call: whether `os.Stat` and `os.Open`
succeed, and the decoder's verdict `(sampleRate, totalSamples)`. -/
structure LoadEnv where
  statOk : Bool
  openOk : Bool
  decode : Except String (ℕ × ℕ)
deriving Repr

/-- The fixed speaker sample rate initialized on first Load. -/
def speakerSampleRate : ℕ := 44100

/-- `Player.Load`, following the Go control flow: closed check; stop
playback and release the previous streamer; stat/open; extension
dispatch; decode; zero-length check; lazy speaker init; resample
wrapping with the two-step length conversion when rates differ; field
resets; rebuild of ctrl/volume wrappers and re-application of the stored
volume (a volume error is only reported via `lastError`).  After the
previous streamer is closed, `Load` performs a non-blocking drain of the
1-buffered `playbackDone` channel (`select { case <-p.playbackDone:
default: } }`), clearing any stale finished signal, and nils out the old
ctrl/volume wrappers before decoding the new file. -/
def playerLoad (st : PlayerState) (path : String) (env : LoadEnv) :
    PlayerState × Option String :=
  if st.isClosed then (st, some "player is closed")
  else
    let st1 := { st with isPlaying := false, streamer := none
                         playbackDone := false
                         hasCtrl := false, hasVolume := false }
    if env.statOk = false then (st1, some "file not accessible")
    else if env.openOk = false then (st1, some "failed to open file")
    else
      match loadDispatch (getFileExtension path) with
      | none => (st1, some ("unsupported file format: " ++ getFileExtension path))
      | some _ =>
        match env.decode with
        | .error e => (st1, some ("failed to decode: " ++ e))
        | .ok (rate, totalSamples) =>
          if totalSamples = 0 then
            (st1, some "file contains no audio data or is corrupted")
          else
            let st2 :=
              if st1.isInitialized = false then
                { st1 with isInitialized := true, speakerRate := speakerSampleRate }
              else st1
            let finalRate := if rate = st2.speakerRate then rate else st2.speakerRate
            let finalLen :=
              if rate = st2.speakerRate then totalSamples
              else resampledLength rate st2.speakerRate totalSamples
            let st3 := { st2 with
              streamer := some ⟨finalLen, 0⟩
              formatRate := finalRate
              currentFile := path
              isPlaying := false
              pausedPosition := 0
              sampleOffset := 0
              totalLength := srD finalRate finalLen
              lastError := none
              hasCtrl := true
              hasVolume := true }
            match setVolumeUnsafe st3 st3.volumeLevel with
            | (st4, some e) => ({ st4 with lastError := some ("failed to set volume: " ++ e) }, none)
            | (st4, none) => (st4, none)

/-- `Player.Play`: no-op when already playing; resuming from a non-zero
paused position seeks the streamer there (falling back to position 0 on
a failed seek, with `sampleOffset` still set to the computed sample
position); rebuilds the ctrl/volume wrappers, re-applies the volume,
drains any stale `playbackDone` signal, installs the completion
callback and starts output. -/
def playerPlay (st : PlayerState) : PlayerState × Option String :=
  if st.isClosed then (st, some "player is closed")
  else
    match st.streamer with
    | none => (st, some "no file loaded")
    | some s =>
      if st.isPlaying then (st, none)
      else
        let samplePos := srN st.formatRate st.pausedPosition
        let stSeeked :=
          if st.pausedPosition > 0 then
            if samplePos ≤ s.len then
              { st with streamer := some { s with pos := samplePos }
                        sampleOffset := samplePos }
            else
              { st with pausedPosition := 0
                        streamer := some { s with pos := 0 }
                        sampleOffset := samplePos }
          else st
        let stCtrl := { stSeeked with hasCtrl := true, hasVolume := true }
        match setVolumeUnsafe stCtrl stCtrl.volumeLevel with
        | (st', some e) => (st', some ("failed to set volume: " ++ e))
        | (st', none) => ({ st' with isPlaying := true, playbackDone := false }, none)

/-- The beep completion callback installed by `Play`: a non-blocking send
on the 1-buffered `playbackDone` channel when the stream is exhausted. -/
def naturalFinish (st : PlayerState) : PlayerState :=
  { st with playbackDone := true }

/-- `Player.HasPlaybackFinished`: one-shot, consuming, non-blocking
receive. -/
def hasPlaybackFin (st : PlayerState) : Bool × PlayerState :=
  (st.playbackDone, { st with playbackDone := false })

/-- `Player.getCurrentPositionUnsafe`: frozen paused position when not
playing, otherwise wall-clock extrapolation clamped to the total
length (`elapsed` is `time.Since(startTime)` in ns). -/
def getCurrentPositionUnsafe (st : PlayerState) (elapsed : ℕ) : ℕ :=
  if st.isPlaying = false then st.pausedPosition
  else min (st.pausedPosition + elapsed) st.totalLength

/-- `Player.GetPlaybackPosition`. -/
def getPlaybackPosition (st : PlayerState) (elapsed : ℕ) : ℕ :=
  getCurrentPositionUnsafe st elapsed

/-- `Player.Seek(position)`: bounds check against `[0, totalLength]`,
convert to a sample offset at the output format's rate, seek the
streamer (the streamer accepts exactly positions in `[0, len]`), update
`sampleOffset` and `pausedPosition`. -/
def playerSeek (st : PlayerState) (position : ℤ) : PlayerState × Option String :=
  if st.isClosed then (st, some "player is closed")
  else
    match st.streamer with
    | none => (st, some "no file loaded")
    | some s =>
      if position < 0 ∨ position > (st.totalLength : ℤ) then
        (st, some "position out of bounds")
      else
        let samplePos := srN st.formatRate position.toNat
        if samplePos ≤ s.len then
          ({ st with streamer := some { s with pos := samplePos }
                     sampleOffset := samplePos
                     pausedPosition := position.toNat }, none)
        else (st, some "failed to seek to position")

/-- `Player.Stop`: clear output, reset paused position and sample offset,
drain any pending `playbackDone` signal, seek the streamer back to 0
(ignoring a seek failure). -/
def playerStop (st : PlayerState) : PlayerState × Option String :=
  if st.isClosed then (st, some "player is closed")
  else
    match st.streamer with
    | none => (st, some "no file loaded")
    | some s =>
      ({ st with isPlaying := false, pausedPosition := 0, sampleOffset := 0
                 playbackDone := false
                 streamer := some { s with pos := 0 } }, none)

/-- Postconditions of a successful `Load`: playback stopped, a fresh
streamer at position 0, paused position and sample offset reset, stored
volume preserved and re-applied onto the freshly built wrappers — and
any pending one-shot `playbackDone` signal drained. -/
theorem playerLoad_success (st : PlayerState) (path : String) (env : LoadEnv)
    (st' : PlayerState) (h : playerLoad st path env = (st', none)) :
    st'.isPlaying = false ∧
    (∃ s, st'.streamer = some s ∧ s.pos = 0) ∧
    st'.pausedPosition = 0 ∧
    st'.sampleOffset = 0 ∧
    st'.volumeLevel = st.volumeLevel ∧
    st'.hasCtrl = true ∧
    st'.hasVolume = true ∧
    st'.playbackDone = false ∧
    (0 ≤ st.volumeLevel → st.volumeLevel ≤ 1 →
      ((st.volumeLevel = 0 → st'.volumeSilent = true) ∧
       (st.volumeLevel ≠ 0 → st'.volumeSilent = false ∧
          st'.volumeVal = st.volumeLevel - 1))) := by
  unfold playerLoad at h
  split at h
  · simp at h
  · split at h
    · simp at h
    · split at h
      · simp at h
      · split at h
        · simp at h
        · split at h
          · simp at h
          · split at h
            · simp at h
            · dsimp only at h
              simp only [setVolumeUnsafe] at h
              split_ifs at h <;>
                (dsimp only at h
                 rw [Prod.mk.injEq] at h
                 obtain ⟨h1, -⟩ := h
                 subst h1
                 refine ⟨rfl, ⟨_, rfl, rfl⟩, rfl, rfl, rfl, rfl, rfl, rfl,
                          fun hv0 hv1 => ?_⟩) <;>
                (try dsimp only at *) <;>
                first
                  | exact ‹False›.elim
                  | exact ⟨fun _ => rfl, fun hne => absurd ‹st.volumeLevel = 0› hne⟩
                  | exact ⟨fun h0 => absurd h0 ‹¬st.volumeLevel = 0›,
                            fun _ => ⟨rfl, rfl⟩⟩
                  | (exfalso
                     rcases ‹st.volumeLevel < 0 ∨ st.volumeLevel > 1› with hb | hb <;>
                       linarith)

/-- Load environment used in the concrete player scenarios: stat and open
succeed, the decoder reports 44100 Hz and 44100 samples. -/
def c3Env : LoadEnv := ⟨true, true, .ok (44100, 44100)⟩

def c3AfterFirstLoad : PlayerState := (playerLoad newPlayer "a.mp3" c3Env).1

def c3Playing : PlayerState := (playerPlay c3AfterFirstLoad).1

def c3Finished : PlayerState := naturalFinish c3Playing

def c3AfterSecondLoad : PlayerState := (playerLoad c3Finished "b.mp3" c3Env).1

/-- Claim C3: after every successful `Load(path)`: playback is stopped,
the previous stream is released and a fresh streamer installed at
position 0, paused position and sample offset are reset to zero, the
previously configured volume level is re-applied to the newly built
volume wrapper — and any stale one-shot finished signal is cleared
(`Load` performs a non-blocking drain of `playbackDone` after closing
the old streamer), so `HasPlaybackFinished()` immediately after a
successful `Load` returns false. -/
theorem C3_load_postconditions (st : PlayerState) (path : String)
    (env : LoadEnv) (st' : PlayerState)
    (h : playerLoad st path env = (st', none)) :
    st'.isPlaying = false ∧
    (∃ s, st'.streamer = some s ∧ s.pos = 0) ∧
    st'.pausedPosition = 0 ∧
    st'.sampleOffset = 0 ∧
    st'.volumeLevel = st.volumeLevel ∧
    st'.hasCtrl = true ∧
    st'.hasVolume = true ∧
    (0 ≤ st.volumeLevel → st.volumeLevel ≤ 1 →
      ((st.volumeLevel = 0 → st'.volumeSilent = true) ∧
       (st.volumeLevel ≠ 0 → st'.volumeSilent = false ∧
          st'.volumeVal = st.volumeLevel - 1))) ∧
    (hasPlaybackFin st').1 = false := by
  obtain ⟨h1, h2, h3, h4, h5, h6, h7, h8, h9⟩ :=
    playerLoad_success st path env st' h
  exact ⟨h1, h2, h3, h4, h5, h6, h7, h9, by
    simpa only [hasPlaybackFin] using h8⟩

theorem C3_load_postconditions_witness :
    c3Finished.playbackDone = true ∧
    (c3AfterSecondLoad.isPlaying = false ∧
    (∃ s, c3AfterSecondLoad.streamer = some s ∧ s.pos = 0) ∧
    c3AfterSecondLoad.pausedPosition = 0 ∧
    c3AfterSecondLoad.sampleOffset = 0 ∧
    c3AfterSecondLoad.volumeLevel = c3Finished.volumeLevel ∧
    c3AfterSecondLoad.hasCtrl = true ∧
    c3AfterSecondLoad.hasVolume = true ∧
    (0 ≤ c3Finished.volumeLevel → c3Finished.volumeLevel ≤ 1 →
      ((c3Finished.volumeLevel = 0 → c3AfterSecondLoad.volumeSilent = true) ∧
       (c3Finished.volumeLevel ≠ 0 → c3AfterSecondLoad.volumeSilent = false ∧
          c3AfterSecondLoad.volumeVal = c3Finished.volumeLevel - 1))) ∧
    (hasPlaybackFin c3AfterSecondLoad).1 = false) :=
  ⟨rfl, C3_load_postconditions c3Finished "b.mp3" c3Env c3AfterSecondLoad rfl⟩

/-- Claim C7: while not playing, a successful `Seek(p)` for
`0 ≤ p ≤ totalLength` immediately followed by `GetPlaybackPosition()`
returns exactly `p`.  The hypotheses `totalLength = srD formatRate len`
and `0 < formatRate` are the invariants `Load` establishes for the
installed streamer. -/
theorem C7_seek_then_read (st : PlayerState) (s : StreamerSt) (p : ℤ)
    (elapsed : ℕ)
    (hc : st.isClosed = false) (hs : st.streamer = some s)
    (hr : 0 < st.formatRate)
    (hlen : st.totalLength = srD st.formatRate s.len)
    (hplay : st.isPlaying = false)
    (h0 : 0 ≤ p) (hle : p ≤ (st.totalLength : ℤ)) :
    (playerSeek st p).2 = none ∧
    ((getPlaybackPosition (playerSeek st p).1 elapsed : ℤ) = p) := by
  have hb : ¬ (p < 0 ∨ p > (st.totalLength : ℤ)) := by
    push_neg
    exact ⟨h0, hle⟩
  have hpn : p.toNat ≤ st.totalLength := by omega
  have hsp : srN st.formatRate p.toNat ≤ s.len := by
    apply srN_le_of_le_srD p.toNat hr
    rw [← hlen]
    exact hpn
  have hcr : ¬ st.isClosed = true := by simp [hc]
  simp only [playerSeek, if_neg hcr, hs, if_neg hb, if_pos hsp,
    getPlaybackPosition, getCurrentPositionUnsafe, hplay]
  norm_num
  omega

theorem C7_seek_then_read_witness :
    (playerSeek
      { newPlayer with streamer := some ⟨44100, 0⟩, formatRate := 44100
                       totalLength := srD 44100 44100 } 500000000).2 = none ∧
    ((getPlaybackPosition
      (playerSeek
        { newPlayer with streamer := some ⟨44100, 0⟩, formatRate := 44100
                         totalLength := srD 44100 44100 } 500000000).1 77 : ℤ)
      = 500000000) :=
  C7_seek_then_read _ ⟨44100, 0⟩ 500000000 77 rfl rfl (by norm_num) rfl rfl
    (by norm_num) (by decide)

/-- Claim C8: `SetVolume(v)` outside `[0,1]` fails with the
invalid-volume error and leaves the state (hence the stored level)
unchanged; inside `[0,1]` it succeeds and stores `v`, and the stored
value is applied onto the wrapper built by the next successful `Load`. -/
theorem C8_setVolume (st : PlayerState) (v : ℚ) :
    ((v < 0 ∨ 1 < v) → playerSetVolume st v = (st, some invalidVolumeMsg)) ∧
    (0 ≤ v → v ≤ 1 → (playerSetVolume st v).2 = none ∧
        (playerSetVolume st v).1.volumeLevel = v) ∧
    (0 ≤ v → v ≤ 1 → ∀ path env st',
        playerLoad (playerSetVolume st v).1 path env = (st', none) →
        st'.volumeLevel = v ∧ (v = 0 → st'.volumeSilent = true) ∧
        (v ≠ 0 → st'.volumeSilent = false ∧ st'.volumeVal = v - 1)) := by
  refine ⟨?_, ?_, ?_⟩
  · intro hbad
    have : v < 0 ∨ v > 1 := hbad
    simp only [playerSetVolume, setVolumeUnsafe, if_pos this]
  · intro h0 h1
    have hok : ¬ (v < 0 ∨ v > 1) := by
      push_neg
      exact ⟨h0, h1⟩
    simp only [playerSetVolume, setVolumeUnsafe, if_neg hok]
    split_ifs <;> simp
  · intro h0 h1 path env st' h
    have hmidv : (playerSetVolume st v).1.volumeLevel = v := by
      have hok : ¬ (v < 0 ∨ v > 1) := by
        push_neg
        exact ⟨h0, h1⟩
      simp only [playerSetVolume, setVolumeUnsafe, if_neg hok]
      split_ifs <;> simp
    obtain ⟨-, -, -, -, h5, -, -, -, h9⟩ :=
      playerLoad_success _ path env st' h
    rw [hmidv] at h5 h9
    exact ⟨h5, (h9 h0 h1).1, (h9 h0 h1).2⟩

theorem C8_setVolume_witness :
    playerSetVolume newPlayer ((3 : ℚ) / 2) = (newPlayer, some invalidVolumeMsg) :=
  (C8_setVolume newPlayer ((3 : ℚ) / 2)).1 (Or.inr (by norm_num))

/-- Claim C10: `Player.Load`'s extension dispatch is case-sensitive —
exactly ".mp3" and ".wav" are accepted — so a path ending in ".MP3"
fails with the unsupported-format error, while the library's
`isSupportedAudioFile` lower-cases the extension and accepts the same
path. -/
theorem C10_extension_case (st : PlayerState) (env : LoadEnv) :
    (∀ ext : String, (loadDispatch ext).isSome = true ↔
        (ext = ".mp3" ∨ ext = ".wav")) ∧
    (st.isClosed = false → env.statOk = true → env.openOk = true →
      (playerLoad st "song.MP3" env).2 = some "unsupported file format: .MP3") ∧
    isSupportedAudioFile "song.MP3" = true := by
  refine ⟨?_, ?_, by decide⟩
  · intro ext
    unfold loadDispatch
    split_ifs with hmp3 hwav <;> simp_all
  · intro hc hst hop
    have hcr : ¬ st.isClosed = true := by simp [hc]
    have hstr : ¬ env.statOk = false := by simp [hst]
    have hopr : ¬ env.openOk = false := by simp [hop]
    have hext : getFileExtension "song.MP3" = ".MP3" := by decide
    have hdisp : loadDispatch ".MP3" = none := by decide
    simp only [playerLoad, if_neg hcr, if_neg hstr, if_neg hopr, hext, hdisp]
    rfl

theorem C10_extension_case_witness :
    ((loadDispatch ".MP3").isSome = true ↔
        (".MP3" = ".mp3" ∨ ".MP3" = ".wav")) ∧
    (playerLoad newPlayer "song.MP3" ⟨true, true, .ok (44100, 44100)⟩).2
      = some "unsupported file format: .MP3" ∧
    isSupportedAudioFile "song.MP3" = true :=
  ⟨(C10_extension_case newPlayer ⟨true, true, .ok (44100, 44100)⟩).1 ".MP3",
   (C10_extension_case newPlayer ⟨true, true, .ok (44100, 44100)⟩).2.1
     rfl rfl rfl,
   (C10_extension_case newPlayer ⟨true, true, .ok (44100, 44100)⟩).2.2⟩

/-! ## Download manager: job status and retry loop

Embedding of `downloader/manager.go`. -/

/-- `downloader.Status`. -/
inductive JobStatus
  | pending
  | inProgress
  | completed
  | failed
  | cancelled
deriving DecidableEq, Repr

/-- Is `pat` a leading segment of `s` (character list view of Go string
comparison)? -/
def isPrefLC : List Char → List Char → Bool
  | [], _ => true
  | _ :: _, [] => false
  | a :: as, b :: bs => a = b && isPrefLC as bs

/-- Does `s` contain `pat` as a contiguous substring? -/
def hasSub (pat : List Char) : List Char → Bool
  | [] => isPrefLC pat []
  | c :: t => isPrefLC pat (c :: t) || hasSub pat t

/-- Go's `strings.Contains`. -/
def strContainsGo (s pat : String) : Bool := hasSub pat.toList s.toList

/-- The retryable-error class of `downloadWithRetry`: the error text
contains "403" or "Forbidden". -/
def isRetryableErr (e : String) : Bool :=
  strContainsGo e "403" || strContainsGo e "Forbidden"

/-- One unrolling of the `for attempt := range maxRetries` loop of
`downloadWithRetry`: `oc` gives each attempt's outcome, `attempt` is the
current index, `fuel` the remaining iterations.  Returns the result plus
the list of backoff delays waited, in seconds (`baseDelay` is one
second, shifted left by the attempt index). -/
def retryAux (oc : ℕ → Except String String) (attempt fuel : ℕ) :
    Except String String × List ℕ :=
  match fuel with
  | 0 => (.error "max retries exceeded", [])
  | f + 1 =>
    match oc attempt with
    | .ok fp => (.ok fp, [])
    | .error e =>
      if isRetryableErr e then
        ((retryAux oc (attempt + 1) f).1, 2 ^ attempt :: (retryAux oc (attempt + 1) f).2)
      else (.error e, [])

/-- `downloadWithRetry`: `maxRetries := 3`, starting at attempt 0. -/
def downloadWithRetry (oc : ℕ → Except String String) :
    Except String String × List ℕ :=
  retryAux oc 0 3

/-- Claim C6: fetch attempts whose error text contains "403"/"Forbidden"
are retried up to a ceiling of 3 attempts with exponential backoff
(delay `2^attempt` seconds: 1s, 2s, 4s); any other error is returned
immediately with no further attempts; after three retryable failures the
loop returns "max retries exceeded". -/
theorem C6_retry_policy (oc : ℕ → Except String String) :
    downloadWithRetry oc = retryAux oc 0 3 ∧
    (∀ e, isRetryableErr e = (strContainsGo e "403" || strContainsGo e "Forbidden")) ∧
    (∀ a, retryAux oc a 0 = (.error "max retries exceeded", [])) ∧
    (∀ a f fp, oc a = .ok fp → retryAux oc a (f + 1) = (.ok fp, [])) ∧
    (∀ a f e, oc a = .error e → isRetryableErr e = false →
        retryAux oc a (f + 1) = (.error e, [])) ∧
    (∀ a f e, oc a = .error e → isRetryableErr e = true →
        retryAux oc a (f + 1)
          = ((retryAux oc (a + 1) f).1, 2 ^ a :: (retryAux oc (a + 1) f).2)) ∧
    (∀ e0 e1 e2, oc 0 = .error e0 → oc 1 = .error e1 → oc 2 = .error e2 →
        isRetryableErr e0 = true → isRetryableErr e1 = true →
        isRetryableErr e2 = true →
        downloadWithRetry oc = (.error "max retries exceeded", [1, 2, 4])) := by
  refine ⟨rfl, fun e => rfl, fun a => rfl, ?_, ?_, ?_, ?_⟩
  · intro a f fp hok
    simp [retryAux, hok]
  · intro a f e herr hnr
    simp [retryAux, herr, hnr]
  · intro a f e herr hr
    simp [retryAux, herr, hr]
  · intro e0 e1 e2 h0 h1 h2 hr0 hr1 hr2
    simp [downloadWithRetry, retryAux, h0, h1, h2, hr0, hr1, hr2]

/-- Outcome script used by the C6 witness: a 403 on the first attempt,
success on all later attempts. -/
def c6Oracle : ℕ → Except String String :=
  fun i => if i = 0 then .error "HTTP 403 Forbidden" else .ok "song.mp3"

theorem C6_retry_policy_witness :
    retryAux c6Oracle 0 (2 + 1)
      = ((retryAux c6Oracle 1 2).1, 2 ^ 0 :: (retryAux c6Oracle 1 2).2) ∧
    retryAux c6Oracle 1 (1 + 1) = (.ok "song.mp3", []) :=
  ⟨(C6_retry_policy c6Oracle).2.2.2.2.2.1 0 2 "HTTP 403 Forbidden" rfl (by decide),
   (C6_retry_policy c6Oracle).2.2.2.1 1 1 "song.mp3" rfl⟩

/-! ## Progress / completion emission order (C2)

Messages sent on the manager's channels for one job, in order.
`copyWithProgress` publishes one `ProgressUpdate` per non-empty read
chunk with progress `written/size` (when `size > 0`; otherwise the item's
progress is left untouched); `updateStatus` also publishes an update
carrying the item's current progress; `completeWithError` / the success
path of `processDownload` finish with a `CompletionEvent`. -/

inductive Emission
  | progressMsg (status : JobStatus) (progress : ℚ)
  | completionMsg (failed : Bool)
deriving DecidableEq, Repr

/-- The copy loop of `copyWithProgress`: returns the published progress
values in order, and the item's final progress.  `written` is the byte
count so far, `prog` the item's current progress fraction. -/
def copyMsgs (size : ℕ) : ℕ → ℚ → List ℕ → List ℚ × ℚ
  | _, prog, [] => ([], prog)
  | written, prog, c :: cs =>
    if c = 0 then copyMsgs size written prog cs
    else
      let w := written + c
      let p := if 0 < size then mkRat w size else prog
      ((p :: (copyMsgs size w p cs).1), (copyMsgs size w p cs).2)

/-- One `downloadVideo` attempt inside `downloadWithRetry`: `item.Size`
is set to `size`, then `copyWithProgress` runs with its local `written`
counter starting at 0 while `item.Progress` (here `prog`) persists from
any previous attempt; if the copy completes (`converting = true`) the
`updateStatus(InProgress, "Converting to MP3...")` update is published
carrying the item's current progress.  An attempt may end mid-copy (a
retryable error makes `downloadWithRetry` run the next attempt). -/
structure AttemptScript where
  size : ℕ
  chunks : List ℕ
  converting : Bool
deriving Repr

/-- The messages one attempt emits from item progress `prog`, and the
item's progress after the attempt. -/
def attemptEmissions (prog : ℚ) (a : AttemptScript) : List Emission × ℚ :=
  (((copyMsgs a.size 0 prog a.chunks).1.map (Emission.progressMsg .inProgress)) ++
     (if a.converting then
       [.progressMsg .inProgress (copyMsgs a.size 0 prog a.chunks).2]
      else []),
   (copyMsgs a.size 0 prog a.chunks).2)

/-- The messages of all attempts of one `downloadWithRetry` call, in
order, threading `item.Progress` (which is never reset between automatic
attempts — only the local `written` restarts at 0). -/
def attemptsEmissions : ℚ → List AttemptScript → List Emission × ℚ
  | prog, [] => ([], prog)
  | prog, a :: as =>
    ((attemptEmissions prog a).1 ++
       (attemptsEmissions (attemptEmissions prog a).2 as).1,
     (attemptsEmissions (attemptEmissions prog a).2 as).2)

/-- All messages emitted for one processing run of a job
(`processDownload`): the `InProgress` update from `updateStatus` at
pickup (the item's progress is 0 at a fresh run), the attempts of the
`downloadWithRetry` call, then either (`finalFails`) the `Failed` update
plus an error-carrying completion event, or the `Completed` update and
the success completion event. -/
def runEmissions (attempts : List AttemptScript) (finalFails : Bool) :
    List Emission :=
  .progressMsg .inProgress 0 ::
    (attemptsEmissions 0 attempts).1 ++
    (if finalFails then
      [.progressMsg .failed (attemptsEmissions 0 attempts).2,
       .completionMsg true]
    else
      [.progressMsg .completed (attemptsEmissions 0 attempts).2,
       .completionMsg false])

/-- The progress values carried by the ProgressUpdates of a message
sequence, in emission order. -/
def progressValues (l : List Emission) : List ℚ :=
  l.filterMap fun e =>
    match e with
    | .progressMsg _ p => some p
    | .completionMsg _ => none

/-- Is some CompletionEvent followed by a later message? -/
def nonFinalCompletion : List Emission → Bool
  | [] => false
  | .progressMsg _ _ :: rest => nonFinalCompletion rest
  | .completionMsg _ :: [] => false
  | .completionMsg _ :: _ :: _ => true

theorem mkRat_mono {a b : ℕ} (s : ℕ) (h : a ≤ b) :
    mkRat (a : ℤ) s ≤ mkRat (b : ℤ) s := by
  rcases Nat.eq_zero_or_pos s with hs | hs
  · simp [hs]
  · rw [Rat.mkRat_eq_div, Rat.mkRat_eq_div]
    have hs' : (0 : ℚ) < (s : ℚ) := by exact_mod_cast hs
    have hab : (a : ℚ) ≤ (b : ℚ) := by exact_mod_cast h
    rw [div_le_div_iff hs' hs']
    push_cast
    nlinarith [hab, hs'.le]

theorem copyMsgs_chain (size : ℕ) (chunks : List ℕ) :
    ∀ (written : ℕ) (prog : ℚ), (0 < size → prog = mkRat written size) →
    List.Chain' (· ≤ ·)
      ((prog :: (copyMsgs size written prog chunks).1)
        ++ [(copyMsgs size written prog chunks).2]) := by
  induction chunks with
  | nil =>
    intro written prog _
    simp [copyMsgs]
  | cons c cs ih =>
    intro written prog hp
    by_cases hc : c = 0
    · subst hc
      simpa [copyMsgs] using ih written prog hp
    · have hrec := ih (written + c)
        (if 0 < size then mkRat (written + c) size else prog)
        (fun hs => by simp [if_pos hs])
      have hle : prog ≤ (if 0 < size then mkRat (written + c) size else prog) := by
        by_cases hs : 0 < size
        · rw [if_pos hs, hp hs]
          exact mkRat_mono size (Nat.le_add_right _ _)
        · rw [if_neg hs]
      simp only [copyMsgs, if_neg hc, List.cons_append]
      exact List.chain'_cons.mpr ⟨hle, by simpa [List.cons_append] using hrec⟩

theorem nonFinal_skip (msgs : List ℚ) (st : JobStatus) (tail : List Emission) :
    nonFinalCompletion (msgs.map (Emission.progressMsg st) ++ tail)
      = nonFinalCompletion tail := by
  induction msgs with
  | nil => rfl
  | cons m ms ih => simpa [nonFinalCompletion] using ih

theorem filterMap_prog (st : JobStatus) (l : List ℚ) :
    List.filterMap
      ((fun e =>
        match e with
        | Emission.progressMsg _ p => some p
        | Emission.completionMsg _ => none) ∘ Emission.progressMsg st) l = l := by
  induction l with
  | nil => rfl
  | cons a t ih => simp [Function.comp, ih]

/-- The copy-loop messages of one attempt (with the attempt's final
progress appended) are non-decreasing regardless of the progress the
item carried into the attempt: the first non-empty chunk overwrites the
carried progress with `written/size`, after which `copyMsgs_chain`
applies. -/
theorem copyMsgs_tail_chain (size : ℕ) (chunks : List ℕ) :
    ∀ (written : ℕ) (prog : ℚ),
    List.Chain' (· ≤ ·)
      ((copyMsgs size written prog chunks).1
        ++ [(copyMsgs size written prog chunks).2]) := by
  induction chunks with
  | nil =>
    intro written prog
    simp [copyMsgs]
  | cons c cs ih =>
    intro written prog
    by_cases hc : c = 0
    · subst hc
      simpa [copyMsgs] using ih written prog
    · have h := copyMsgs_chain size cs (written + c)
        (if 0 < size then mkRat (written + c) size else prog)
        (fun hs => by simp [if_pos hs])
      simpa [copyMsgs, if_neg hc] using h

/-- An attempt's messages are all ProgressUpdates, so
`nonFinalCompletion` passes over them. -/
theorem nonFinal_attempt (prog : ℚ) (a : AttemptScript)
    (tail : List Emission) :
    nonFinalCompletion ((attemptEmissions prog a).1 ++ tail)
      = nonFinalCompletion tail := by
  cases hc : a.converting <;>
    simp [attemptEmissions, hc, List.append_assoc, nonFinal_skip,
      nonFinalCompletion]

theorem nonFinal_attempts (attempts : List AttemptScript) :
    ∀ (prog : ℚ) (tail : List Emission),
    nonFinalCompletion ((attemptsEmissions prog attempts).1 ++ tail)
      = nonFinalCompletion tail := by
  induction attempts with
  | nil =>
    intro prog tail
    simp [attemptsEmissions]
  | cons a as ih =>
    intro prog tail
    simp only [attemptsEmissions, List.append_assoc]
    rw [nonFinal_attempt, ih]

/-- The progress values one attempt publishes are non-decreasing, from
any carried-in progress. -/
theorem attempt_chain (prog : ℚ) (a : AttemptScript) :
    List.Chain' (· ≤ ·) (progressValues (attemptEmissions prog a).1) := by
  have h := copyMsgs_tail_chain a.size a.chunks 0 prog
  cases hc : a.converting
  · have h1 := (List.chain'_append.mp h).1
    simpa [attemptEmissions, hc, progressValues, List.filterMap_append,
      List.filterMap_map, filterMap_prog] using h1
  · simpa [attemptEmissions, hc, progressValues, List.filterMap_append,
      List.filterMap_map, filterMap_prog] using h

/-- Claim C2 (amended): the progress values published by any single
`copyWithProgress` call (one attempt) are non-decreasing, and a
processing run's single CompletionEvent is its last message; but
`downloadWithRetry` restarts the copy with its local `written` counter
at 0 on a retryable error while `item.Progress` persists, so progress
can decrease between attempts of one run (with no intervening
RetryDownload), and `RetryDownload` re-enqueues the job so a failed
run's CompletionEvent need not be the last message for the id. -/
theorem C2_run_messages (attempts : List AttemptScript) (finalFails : Bool) :
    (∀ (a : AttemptScript) (prog : ℚ),
        List.Chain' (· ≤ ·) (progressValues (attemptEmissions prog a).1)) ∧
    (runEmissions attempts finalFails).getLast?
      = some (.completionMsg finalFails) ∧
    nonFinalCompletion (runEmissions attempts finalFails) = false := by
  refine ⟨fun a prog => attempt_chain prog a, ?_, ?_⟩
  · cases finalFails <;>
      (simp only [runEmissions]
       rw [List.getLast?_append]
       rfl)
  · cases finalFails <;>
      simp [runEmissions, nonFinal_attempts, nonFinalCompletion]

/-- A single run: the first attempt reads 3 of 4 bytes and dies on a
retryable error; the automatic second attempt restarts the copy from 0
and completes. -/
def c2AutoRetryRun : List Emission :=
  runEmissions [⟨4, [3], false⟩, ⟨4, [1, 3], true⟩] false

/-- Claim C2: for a single job id the published progress values are
claimed non-decreasing.  False even within one processing run with no
intervening RetryDownload: a retryable (403) error mid-copy makes
`downloadWithRetry` re-run `copyWithProgress`, whose local `written`
restarts at 0, so after publishing 3/4 the next attempt publishes 1/4. -/
theorem C2_counterexample :
    ¬ List.Chain' (· ≤ ·) (progressValues c2AutoRetryRun) := by
  have hv : progressValues c2AutoRetryRun
      = [0, mkRat 3 4, mkRat 1 4, mkRat 4 4, mkRat 4 4, mkRat 4 4] := rfl
  intro hchain
  rw [hv] at hchain
  have h1 := (List.chain'_cons.mp hchain).2
  have h2 := (List.chain'_cons.mp h1).1
  exact absurd h2 (by decide)

/-! ## `GetDownloads` snapshot semantics (C9)

`GetDownloads` iterates `m.order`, looks each id up in `m.items`, and
appends `&itemCopy` where `itemCopy := *item` — a freshly allocated
value copy.  To talk about aliasing we make the heap explicit: addresses
are naturals, the manager's job table maps ids to addresses, and the
copy allocates a fresh address. -/

/-- The fields of `downloader.DownloadItem` that matter for the copy
argument (the remaining fields copy the same way). -/
structure DLItem where
  id : String
  title : String
  progress : ℚ
  status : JobStatus
  downloaded : ℤ
deriving DecidableEq, Repr

structure Heap where
  next : ℕ
  mem : ℕ → DLItem

/-- Mutation of the item behind address `a` (what a worker does through
its `*DownloadItem`, or a caller does to a returned item). -/
def heapWrite (h : Heap) (a : ℕ) (v : DLItem) : Heap :=
  { h with mem := fun b => if b = a then v else h.mem b }

/-- `itemCopy := *item`: allocate a fresh cell holding a copy of `v`. -/
def heapAlloc (h : Heap) (v : DLItem) : Heap × ℕ :=
  ({ next := h.next + 1, mem := fun b => if b = h.next then v else h.mem b },
   h.next)

/-- The manager's job table: insertion order and id-to-address map. -/
structure ManagerHeapSt where
  heap : Heap
  order : List String
  items : List (String × ℕ)

/-- The loop body of `GetDownloads`. -/
def getDownloadsAux (items : List (String × ℕ)) :
    Heap → List String → Heap × List ℕ
  | heap, [] => (heap, [])
  | heap, jid :: rest =>
    match items.lookup jid with
    | none => getDownloadsAux items heap rest
    | some a =>
      let al := heapAlloc heap (heap.mem a)
      let r := getDownloadsAux items al.1 rest
      (r.1, al.2 :: r.2)

/-- `GetDownloads`: returns the addresses of the freshly allocated
copies (the `[]*DownloadItem` handed to the UI). -/
def getDownloads (m : ManagerHeapSt) : ManagerHeapSt × List ℕ :=
  let r := getDownloadsAux m.items m.heap m.order
  ({ m with heap := r.1 }, r.2)

theorem lookup_mem_pairs {l : List (String × ℕ)} {k : String} {v : ℕ}
    (h : l.lookup k = some v) : (k, v) ∈ l := by
  induction l with
  | nil => simp [List.lookup] at h
  | cons p t ih =>
    obtain ⟨a, b⟩ := p
    cases hbeq : (k == a) with
    | false =>
      simp only [List.lookup, hbeq] at h
      exact List.mem_cons_of_mem _ (ih h)
    | true =>
      simp only [List.lookup, hbeq] at h
      have hka : k = a := eq_of_beq hbeq
      have hv : b = v := Option.some.inj h
      subst hka
      subst hv
      exact List.mem_cons_self _ _

theorem getDownloadsAux_spec (items : List (String × ℕ))
    (order : List String) : ∀ (heap : Heap),
    (∀ p ∈ items, p.2 < heap.next) →
    heap.next ≤ (getDownloadsAux items heap order).1.next ∧
    (∀ a, a < heap.next →
      (getDownloadsAux items heap order).1.mem a = heap.mem a) ∧
    (∀ x ∈ (getDownloadsAux items heap order).2,
      heap.next ≤ x ∧ x < (getDownloadsAux items heap order).1.next) ∧
    (getDownloadsAux items heap order).2.map (getDownloadsAux items heap order).1.mem
      = order.filterMap (fun jid => (items.lookup jid).map heap.mem) := by
  induction order with
  | nil =>
    intro heap _
    refine ⟨le_rfl, fun a _ => rfl, by simp [getDownloadsAux], by
      simp [getDownloadsAux]⟩
  | cons jid rest ih =>
    intro heap hwf
    cases hl : items.lookup jid with
    | none =>
      have := ih heap hwf
      simpa [getDownloadsAux, hl] using this
    | some a =>
      have ha : a < heap.next := hwf _ (lookup_mem_pairs hl)
      have hwf' : ∀ p ∈ items, p.2 <
          (heapAlloc heap (heap.mem a)).1.next := by
        intro p hp
        have := hwf p hp
        simp only [heapAlloc]
        omega
      obtain ⟨ih1, ih2, ih3, ih4⟩ := ih (heapAlloc heap (heap.mem a)).1 hwf'
      have hnext : (heapAlloc heap (heap.mem a)).1.next = heap.next + 1 := rfl
      have haddr : (heapAlloc heap (heap.mem a)).2 = heap.next := rfl
      have hlt : heap.next < (heapAlloc heap (heap.mem a)).1.next := by
        rw [hnext]
        omega
      refine ⟨?_, ?_, ?_, ?_⟩
      · simp only [getDownloadsAux, hl]
        exact le_trans hlt.le ih1
      · intro b hb
        simp only [getDownloadsAux, hl]
        rw [ih2 b (by rw [hnext]; omega)]
        simp only [heapAlloc]
        rw [if_neg (by omega)]
      · intro x hx
        simp only [getDownloadsAux, hl, List.mem_cons] at hx
        simp only [getDownloadsAux, hl]
        rcases hx with hx | hx
        · subst hx
          rw [haddr]
          exact ⟨le_rfl, lt_of_lt_of_le hlt ih1⟩
        · have h3 := ih3 x hx
          exact ⟨le_trans hlt.le h3.1, h3.2⟩
      · simp only [getDownloadsAux, hl, List.map_cons, List.filterMap_cons]
        rw [ih4]
        refine List.cons_eq_cons.mpr ⟨?_, ?_⟩
        · rw [haddr, ih2 heap.next (by rw [hnext]; omega)]
          show (if heap.next = heap.next then heap.mem a else heap.mem heap.next)
            = heap.mem a
          rw [if_pos rfl]
        · apply List.filterMap_congr
          intro j _
          cases hj : items.lookup j with
          | none => rfl
          | some b =>
            have hb : b < heap.next := hwf _ (lookup_mem_pairs hj)
            have hmem : (heapAlloc heap (heap.mem a)).1.mem b = heap.mem b := by
              show (if b = heap.next then heap.mem a else heap.mem b) = heap.mem b
              rw [if_neg (by omega)]
            simp [hmem]

/-- Claim C9: every item returned by `GetDownloads` is a freshly
allocated value copy of the corresponding job-table entry at call time:
returned addresses never alias table addresses, the copied values are
the table values at the moment of the call, mutating a returned copy
leaves every table entry unchanged, and a worker's later mutation of a
table entry leaves every returned snapshot unchanged. -/
theorem C9_getDownloads_copies (m : ManagerHeapSt)
    (hwf : ∀ p ∈ m.items, p.2 < m.heap.next) :
    (∀ r ∈ (getDownloads m).2, ∀ p ∈ (getDownloads m).1.items, r ≠ p.2) ∧
    ((getDownloads m).2.map (getDownloads m).1.heap.mem
      = m.order.filterMap (fun jid => (m.items.lookup jid).map m.heap.mem)) ∧
    (∀ r ∈ (getDownloads m).2, ∀ v, ∀ p ∈ (getDownloads m).1.items,
        (heapWrite (getDownloads m).1.heap r v).mem p.2
          = (getDownloads m).1.heap.mem p.2) ∧
    (∀ p ∈ (getDownloads m).1.items, ∀ v, ∀ r ∈ (getDownloads m).2,
        (heapWrite (getDownloads m).1.heap p.2 v).mem r
          = (getDownloads m).1.heap.mem r) := by
  obtain ⟨h1, h2, h3, h4⟩ := getDownloadsAux_spec m.items m.order m.heap hwf
  have hitems : (getDownloads m).1.items = m.items := rfl
  refine ⟨?_, ?_, ?_, ?_⟩
  · intro r hr p hp
    rw [hitems] at hp
    have hrge := (h3 r hr).1
    have hplt := hwf p hp
    omega
  · exact h4
  · intro r hr v p hp
    rw [hitems] at hp
    have hrge := (h3 r hr).1
    have hplt := hwf p hp
    simp only [heapWrite]
    rw [if_neg (by omega)]
  · intro p hp v r hr
    rw [hitems] at hp
    have hrge := (h3 r hr).1
    have hplt := hwf p hp
    simp only [heapWrite]
    rw [if_neg (by omega)]

/-- A one-item manager state used to witness C9. -/
def c9Item : DLItem :=
  { id := "yt_1", title := "t", progress := 0, status := .pending
    downloaded := 0 }

def c9Manager : ManagerHeapSt :=
  { heap := { next := 1, mem := fun _ => c9Item }
    order := ["yt_1"]
    items := [("yt_1", 0)] }

theorem C9_getDownloads_copies_witness :
    (∀ r ∈ (getDownloads c9Manager).2,
        ∀ p ∈ (getDownloads c9Manager).1.items, r ≠ p.2) ∧
    ((getDownloads c9Manager).2.map (getDownloads c9Manager).1.heap.mem
      = c9Manager.order.filterMap
          (fun jid => (c9Manager.items.lookup jid).map c9Manager.heap.mem)) ∧
    (∀ r ∈ (getDownloads c9Manager).2, ∀ v,
        ∀ p ∈ (getDownloads c9Manager).1.items,
        (heapWrite (getDownloads c9Manager).1.heap r v).mem p.2
          = (getDownloads c9Manager).1.heap.mem p.2) ∧
    (∀ p ∈ (getDownloads c9Manager).1.items, ∀ v,
        ∀ r ∈ (getDownloads c9Manager).2,
        (heapWrite (getDownloads c9Manager).1.heap p.2 v).mem r
          = (getDownloads c9Manager).1.heap.mem r) :=
  C9_getDownloads_copies c9Manager (by
    intro p hp
    simp only [c9Manager, List.mem_singleton] at hp
    subst hp
    decide)

/-! ## Job status transition system (C1)

Per-job small-step model of `manager.go`.  All status writes happen
under `m.mu`, so each write is one atomic step; user operations
(`CancelDownload`, `RemoveDownload`, `RetryDownload`) can interleave
between any two worker steps.  The worker program counter follows
`processDownload`: register the per-job cancel context, check the
status, `updateStatus(InProgress)` (an unconditional write), check the
context, `MkdirAll`, `downloadWithRetry` (with the mid-fetch
"Converting to MP3..." `InProgress` update), the post-fetch
context/default select, `completeWithError`, metadata extraction and
the final `Completed` write.  `updateStatus` only writes when the id is
still in the job table (`inTable`). -/

inductive WorkerPc
  | idle
  | preCheck
  | setStatus
  | ctxSelect
  | fetching
  | errSelect
  | failing
  | extracting
  | completing
deriving DecidableEq, Repr

structure JobState where
  status : JobStatus
  pc : WorkerPc
  inTable : Bool
  queued : Bool
  ctxCancelled : Bool
deriving DecidableEq, Repr

/-- `CancelDownload`, first half: fire the per-job cancel function if the
worker has registered one (it is registered for the whole of
`processDownload`). -/
def opCancelCtx (s : JobState) : JobState :=
  if s.pc = .idle then s else { s with ctxCancelled := true }

/-- `CancelDownload`, second half: flag the status under `m.mu` when the
job is still listed and Pending or InProgress. -/
def opCancelStatus (s : JobState) : JobState :=
  if s.inTable = true ∧ (s.status = .pending ∨ s.status = .inProgress) then
    { s with status := .cancelled }
  else s

/-- `RemoveDownload`: mark an in-flight job Cancelled, then drop it from
the table. -/
def opRemove (s : JobState) : JobState :=
  if s.inTable = true then
    if s.status = .inProgress then { s with status := .cancelled, inTable := false }
    else { s with inTable := false }
  else s

/-- `RetryDownload`: Failed jobs only; back to Pending and re-enqueued. -/
def opRetry (s : JobState) : JobState :=
  if s.inTable = true ∧ s.status = .failed then
    { s with status := .pending, queued := true }
  else s

/-- Worker small steps at each program counter. -/
def workerSuccs (s : JobState) : List JobState :=
  match s.pc with
  | .idle =>
    if s.queued = true then
      [{ s with pc := .preCheck, queued := false, ctxCancelled := false }]
    else []
  | .preCheck =>
    if s.status = .cancelled then [{ s with pc := .idle }]
    else [{ s with pc := .setStatus }]
  | .setStatus =>
    [{ s with status := if s.inTable then .inProgress else s.status
              pc := .ctxSelect }]
  | .ctxSelect =>
    if s.ctxCancelled = true then
      [{ s with status := if s.inTable then .cancelled else s.status
                pc := .idle }]
    else
      [{ s with pc := .fetching }, { s with pc := .failing }]
  | .fetching =>
    [{ s with pc := .extracting },
     { s with pc := .errSelect },
     { s with status := if s.inTable then .inProgress else s.status }]
  | .errSelect =>
    if s.ctxCancelled = true then
      [{ s with status := if s.inTable then .cancelled else s.status
                pc := .idle }]
    else [{ s with pc := .failing }]
  | .failing =>
    [{ s with status := if s.inTable then .failed else s.status
              pc := .idle }]
  | .extracting =>
    [{ s with pc := .completing }, { s with pc := .failing }]
  | .completing =>
    [{ s with status := if s.inTable then .completed else s.status
              pc := .idle }]

/-- All successors of a state: one user operation or one worker step. -/
def mgrSuccs (s : JobState) : List JobState :=
  [opCancelCtx s, opCancelStatus s, opRemove s, opRetry s] ++ workerSuccs s

def jobStep (s s' : JobState) : Prop := s' ∈ mgrSuccs s

instance (s s' : JobState) : Decidable (jobStep s s') :=
  inferInstanceAs (Decidable (s' ∈ mgrSuccs s))

/-- The state right after `AddDownload`. -/
def initJob : JobState :=
  { status := .pending, pc := .idle, inTable := true, queued := true
    ctxCancelled := false }

/-- Program counters strictly after the worker's `InProgress` write. -/
def latePc (pc : WorkerPc) : Bool :=
  match pc with
  | .ctxSelect | .fetching | .errSelect | .failing | .extracting | .completing => true
  | _ => false

def isPendingOrCancelled (st : JobStatus) : Bool :=
  match st with
  | .pending | .cancelled => true
  | _ => false

def isInProgressOrCancelled (st : JobStatus) : Bool :=
  match st with
  | .inProgress | .cancelled => true
  | _ => false

/-- Inductive invariant of the job model: a queued job's worker slot is
idle; at pickup, pre-check and the `InProgress` write the status is
Pending or Cancelled; after the `InProgress` write a listed job is
InProgress or Cancelled. -/
def jobInv (s : JobState) : Bool :=
  (!s.queued || decide (s.pc = .idle)) &&
  (!(decide (s.pc = .idle) && s.queued) || isPendingOrCancelled s.status) &&
  (!decide (s.pc = .preCheck) || isPendingOrCancelled s.status) &&
  (!decide (s.pc = .setStatus) || isPendingOrCancelled s.status) &&
  (!(latePc s.pc && s.inTable) || isInProgressOrCancelled s.status)

theorem jobInv_init : jobInv initJob = true := by decide

/-- The transition diagram claimed by the spec: Pending→InProgress→
absorbing set, Failed→Pending on retry, Pending/InProgress→Cancelled;
no change also allowed. -/
def specAllowedB (a b : JobStatus) : Bool :=
  decide (a = b) ||
    (match a, b with
     | .pending, .inProgress => true
     | .pending, .cancelled => true
     | .inProgress, .completed => true
     | .inProgress, .failed => true
     | .inProgress, .cancelled => true
     | .failed, .pending => true
     | _, _ => false)

/-- The transitions actually reachable: the spec's diagram plus the
cancellation races Cancelled→{InProgress, Failed, Completed}. -/
def amendedAllowedB (a b : JobStatus) : Bool :=
  specAllowedB a b ||
    (match a, b with
     | .cancelled, .inProgress => true
     | .cancelled, .failed => true
     | .cancelled, .completed => true
     | _, _ => false)

def c1s1 : JobState :=
  { status := .pending, pc := .preCheck, inTable := true, queued := false
    ctxCancelled := false }

def c1s2 : JobState :=
  { status := .pending, pc := .setStatus, inTable := true, queued := false
    ctxCancelled := false }

def c1s3 : JobState :=
  { status := .cancelled, pc := .setStatus, inTable := true, queued := false
    ctxCancelled := false }

def c1s4 : JobState :=
  { status := .inProgress, pc := .ctxSelect, inTable := true, queued := false
    ctxCancelled := false }

/-- Claim C1: Cancelled is claimed terminal under every interleaving.
False: a worker that passed the pre-`InProgress` cancellation check
writes `InProgress` unconditionally, so a `CancelDownload` landing
between the check and the write is overwritten — the reachable step
`c1s3 → c1s4` moves the status Cancelled→InProgress. -/
theorem C1_counterexample :
    Relation.ReflTransGen jobStep initJob c1s3 ∧
    jobStep c1s3 c1s4 ∧
    c1s3.status = .cancelled ∧
    c1s4.status = .inProgress ∧
    specAllowedB .cancelled .inProgress = false :=
  ⟨Relation.ReflTransGen.head (show jobStep initJob c1s1 by decide)
    (Relation.ReflTransGen.head (show jobStep c1s1 c1s2 by decide)
      (Relation.ReflTransGen.head (show jobStep c1s2 c1s3 by decide)
        Relation.ReflTransGen.refl)),
   by decide, rfl, rfl, by decide⟩

/-! To check the invariant and the transition property over the whole
(finite) state space cheaply, states are encoded as naturals below 360
and the check runs over `List.range 360`. -/

def statusToNat : JobStatus → ℕ
  | .pending => 0
  | .inProgress => 1
  | .completed => 2
  | .failed => 3
  | .cancelled => 4

def statusOfNat (n : ℕ) : JobStatus :=
  if n = 0 then .pending
  else if n = 1 then .inProgress
  else if n = 2 then .completed
  else if n = 3 then .failed
  else .cancelled

def pcToNat : WorkerPc → ℕ
  | .idle => 0
  | .preCheck => 1
  | .setStatus => 2
  | .ctxSelect => 3
  | .fetching => 4
  | .errSelect => 5
  | .failing => 6
  | .extracting => 7
  | .completing => 8

def pcOfNat (n : ℕ) : WorkerPc :=
  if n = 0 then .idle
  else if n = 1 then .preCheck
  else if n = 2 then .setStatus
  else if n = 3 then .ctxSelect
  else if n = 4 then .fetching
  else if n = 5 then .errSelect
  else if n = 6 then .failing
  else if n = 7 then .extracting
  else .completing

def encodeJob (s : JobState) : ℕ :=
  statusToNat s.status
    + 5 * (pcToNat s.pc
      + 9 * (s.inTable.toNat + 2 * (s.queued.toNat + 2 * s.ctxCancelled.toNat)))

def decodeJob (n : ℕ) : JobState :=
  { status := statusOfNat (n % 5)
    pc := pcOfNat (n / 5 % 9)
    inTable := decide (n / 45 % 2 = 1)
    queued := decide (n / 90 % 2 = 1)
    ctxCancelled := decide (n / 180 % 2 = 1) }

/-- Exhaustive check: from every state satisfying the invariant, every
successor satisfies it too and the status change is in the amended
diagram. -/
def checkAllStates : Bool :=
  (List.range 360).all fun n =>
    !(jobInv (decodeJob n)) ||
      ((mgrSuccs (decodeJob n)).all fun s2 =>
        jobInv s2 && amendedAllowedB (decodeJob n).status s2.status)

set_option maxRecDepth 10000 in
theorem checkAllStates_true : checkAllStates = true := by decide

theorem statusToNat_lt (a : JobStatus) : statusToNat a < 5 := by
  cases a <;> decide

theorem pcToNat_lt (b : WorkerPc) : pcToNat b < 9 := by
  cases b <;> decide

theorem statusOfNat_toNat (a : JobStatus) : statusOfNat (statusToNat a) = a := by
  cases a <;> rfl

theorem pcOfNat_toNat (b : WorkerPc) : pcOfNat (pcToNat b) = b := by
  cases b <;> rfl

theorem encodeJob_lt (s : JobState) : encodeJob s < 360 := by
  obtain ⟨a, b, c, d, e⟩ := s
  have ha := statusToNat_lt a
  have hb := pcToNat_lt b
  have hc : c.toNat < 2 := by cases c <;> decide
  have hd : d.toNat < 2 := by cases d <;> decide
  have he : e.toNat < 2 := by cases e <;> decide
  simp only [encodeJob]
  omega

theorem decodeJob_encodeJob (s : JobState) : decodeJob (encodeJob s) = s := by
  obtain ⟨a, b, c, d, e⟩ := s
  have ha := statusToNat_lt a
  have hb := pcToNat_lt b
  have hc : c.toNat < 2 := by cases c <;> decide
  have hd : d.toNat < 2 := by cases d <;> decide
  have he : e.toNat < 2 := by cases e <;> decide
  have h1 : encodeJob ⟨a, b, c, d, e⟩ % 5 = statusToNat a := by
    simp only [encodeJob]
    omega
  have h2 : encodeJob ⟨a, b, c, d, e⟩ / 5 % 9 = pcToNat b := by
    simp only [encodeJob]
    omega
  have h3 : encodeJob ⟨a, b, c, d, e⟩ / 45 % 2 = c.toNat := by
    simp only [encodeJob]
    omega
  have h4 : encodeJob ⟨a, b, c, d, e⟩ / 90 % 2 = d.toNat := by
    simp only [encodeJob]
    omega
  have h5 : encodeJob ⟨a, b, c, d, e⟩ / 180 % 2 = e.toNat := by
    simp only [encodeJob]
    omega
  simp only [decodeJob, h1, h2, h3, h4, h5, statusOfNat_toNat, pcOfNat_toNat]
  have hcc : decide (c.toNat = 1) = c := by cases c <;> rfl
  have hdd : decide (d.toNat = 1) = d := by cases d <;> rfl
  have hee : decide (e.toNat = 1) = e := by cases e <;> rfl
  rw [hcc, hdd, hee]

/-- From an invariant state, every step preserves the invariant and its
status change lies in the amended diagram. -/
theorem inv_step_ok (s : JobState) (hs : jobInv s = true) (s2 : JobState)
    (hstep : s2 ∈ mgrSuccs s) :
    jobInv s2 = true ∧ amendedAllowedB s.status s2.status = true := by
  have hall := checkAllStates_true
  rw [checkAllStates, List.all_eq_true] at hall
  have h := hall (encodeJob s) (List.mem_range.mpr (encodeJob_lt s))
  rw [decodeJob_encodeJob, hs] at h
  simp only [Bool.not_true, Bool.false_or] at h
  rw [List.all_eq_true] at h
  have h2 := h s2 hstep
  rw [Bool.and_eq_true] at h2
  exact h2

/-- Claim C1 (amended): along every reachable step of the job model the
status follows the spec's diagram *except* that a cancellation racing
the worker can be overwritten: Cancelled→InProgress (worker's
unconditional `InProgress` writes), Cancelled→Failed
(`completeWithError` after a late cancel) and Cancelled→Completed (the
final `Completed` write after a late cancel) are also reachable;
Completed is terminal and Failed leaves only to Pending via Retry. -/
theorem C1_amended_transitions (s s' : JobState)
    (hreach : Relation.ReflTransGen jobStep initJob s)
    (hstep : jobStep s s') :
    amendedAllowedB s.status s'.status = true := by
  have hinv : ∀ t, Relation.ReflTransGen jobStep initJob t → jobInv t = true := by
    intro t h
    induction h with
    | refl => exact jobInv_init
    | tail _ hbc ih => exact (inv_step_ok _ ih _ hbc).1
  exact (inv_step_ok s (hinv s hreach) s' hstep).2

theorem C1_amended_transitions_witness :
    amendedAllowedB initJob.status (opCancelCtx initJob).status = true :=
  C1_amended_transitions initJob (opCancelCtx initJob)
    Relation.ReflTransGen.refl (by decide)

end Kanade
